import Mathlib

/-!
# Verification of `prime_circuit_breaker.py`

Shallow embedding of the single source file
`src/random_python/prime_circuit_breaker.py`: a circuit breaker driven by a
trial-division primality test, plus the `PrimeHunter` session aggregator.

Modelling conventions:
* Python's ambient clock `time.time()` is passed explicitly as a rational
  `now : ℚ` argument to every method that reads it (the spec itself asks for
  an injected clock).  `reset()` does not depend on the clock for its state
  change (it reads it only for a log line), so it takes no clock argument.
* Python attribute names lose their leading underscore (`_tripped_until`
  becomes `tripped_until`); otherwise names follow the source.
* Counters start at 0 and are only ever incremented or set to 0, so they are
  `Nat`; the configuration values `failure_threshold`, `min_num`, `max_num`
  are arbitrary Python ints, so they are `Int`; `cooldown_seconds` and
  timestamps are `ℚ`.
* `int(math.sqrt(n))` is modelled as the exact integer square root
  `Nat.sqrt`; `random.randint` is modelled by passing the sampled number as
  an argument; `print` calls are state-irrelevant and dropped.
-/

/-- State of `CircuitBreaker` (`prime_circuit_breaker.py`, lines 20-37).
`tripped_until = 0` is the closed sentinel. -/
structure CircuitBreaker where
  failure_threshold : Int
  cooldown_seconds : ℚ
  tripped_until : ℚ
  consecutive_failures : Nat
  total_failures : Nat
  total_successes : Nat
  last_failure_time : Option ℚ
  deriving DecidableEq, Repr

namespace CircuitBreaker

/-- Embedding of `CircuitBreaker.__init__` (lines 28-37): stores the configuration
unvalidated and zeroes all state. -/
def init (failure_threshold : Int) (cooldown_seconds : ℚ) : CircuitBreaker :=
  { failure_threshold := failure_threshold
    cooldown_seconds := cooldown_seconds
    tripped_until := 0
    consecutive_failures := 0
    total_failures := 0
    total_successes := 0
    last_failure_time := none }

/-- Embedding of `CircuitBreaker.allow` (lines 39-41): `time.time() > self._tripped_until`. -/
def allow (cb : CircuitBreaker) (now : ℚ) : Bool :=
  now > cb.tripped_until

/-- Embedding of `CircuitBreaker.trip` (lines 43-54): increment both failure counters,
record the failure time, and when the streak has reached the threshold set
`tripped_until := now + cooldown_seconds`. -/
def trip (cb : CircuitBreaker) (now : ℚ) : CircuitBreaker :=
  let cb' := { cb with
    consecutive_failures := cb.consecutive_failures + 1
    total_failures := cb.total_failures + 1
    last_failure_time := some now }
  if (cb'.consecutive_failures : Int) ≥ cb'.failure_threshold then
    { cb' with tripped_until := now + cb'.cooldown_seconds }
  else
    cb'

/-- Embedding of `CircuitBreaker.reset` (lines 56-64): clear `tripped_until`, zero the
streak, count a success.  (The `was_open` flag only selects a log line.) -/
def reset (cb : CircuitBreaker) : CircuitBreaker :=
  { cb with
    tripped_until := 0
    consecutive_failures := 0
    total_successes := cb.total_successes + 1 }

/-- Embedding of `CircuitBreaker.record_success` (lines 66-73): while allowed, zero the
streak and count the success; while blocked, delegate to `reset`. -/
def record_success (cb : CircuitBreaker) (now : ℚ) : CircuitBreaker :=
  if cb.allow now then
    { cb with
      consecutive_failures := 0
      total_successes := cb.total_successes + 1 }
  else
    cb.reset

end CircuitBreaker

/-- Snapshot returned by `CircuitBreaker.get_stats` (lines 75-88). -/
structure Stats where
  is_open : Bool
  consecutive_failures : Nat
  total_failures : Nat
  total_successes : Nat
  failure_threshold : Int
  cooldown_seconds : ℚ
  next_retry_time : Option ℚ
  seconds_until_retry : ℚ
  success_rate : ℚ
  deriving DecidableEq, Repr

/-- Embedding of `CircuitBreaker.get_stats` (lines 75-88), a read-only computed view. -/
def CircuitBreaker.get_stats (cb : CircuitBreaker) (now : ℚ) : Stats :=
  let is_open := !(cb.allow now)
  { is_open := is_open
    consecutive_failures := cb.consecutive_failures
    total_failures := cb.total_failures
    total_successes := cb.total_successes
    failure_threshold := cb.failure_threshold
    cooldown_seconds := cb.cooldown_seconds
    next_retry_time := if is_open then some cb.tripped_until else none
    seconds_until_retry := if is_open then max 0 (cb.tripped_until - now) else 0
    success_rate :=
      (cb.total_successes : ℚ)
        / (max 1 (cb.total_successes + cb.total_failures) : Nat) * 100 }

/-- Embedding of `is_prime` (lines 100-120): trial division.  The Python loop
`for i in range(3, int(math.sqrt(n)) + 1, 2)` visits exactly the elements of
`List.range' 3 k 2` where `k` is the element count of
`range(3, stop, 2)`, namely `(stop - 2) / 2` with truncated division. -/
def is_prime (n : Int) : Bool :=
  if n < 2 then false
  else if n = 2 then true
  else if n % 2 = 0 then false
  else
    let m := n.toNat
    let stop := Nat.sqrt m + 1
    !((List.range' 3 ((stop - 2) / 2) 2).any fun i => m % i == 0)

/-- State of `PrimeHunter` (lines 129-140). -/
structure PrimeHunter where
  circuit_breaker : CircuitBreaker
  min_num : Int
  max_num : Int
  primes_found : List Int
  attempts : Nat
  deriving DecidableEq, Repr

namespace PrimeHunter

/-- Embedding of `PrimeHunter.__init__` (lines 135-140): stores the configuration
unvalidated, a fresh breaker, and empty session state. -/
def init (failure_threshold : Int) (cooldown_seconds : ℚ)
    (min_num max_num : Int) : PrimeHunter :=
  { circuit_breaker := CircuitBreaker.init failure_threshold cooldown_seconds
    min_num := min_num
    max_num := max_num
    primes_found := []
    attempts := 0 }

/-- Embedding of `PrimeHunter.hunt_prime` (lines 142-170).  The randomly sampled value
is the explicit argument `number`; the call returns the updated hunter and
the boolean result. -/
def hunt_prime (h : PrimeHunter) (now : ℚ) (number : Int) :
    PrimeHunter × Bool :=
  if !(h.circuit_breaker.allow now) then
    (h, false)
  else
    let h' := { h with attempts := h.attempts + 1 }
    if is_prime number then
      ({ h' with
          primes_found := h'.primes_found ++ [number]
          circuit_breaker := h'.circuit_breaker.record_success now }, true)
    else
      ({ h' with circuit_breaker := h'.circuit_breaker.trip now }, false)

end PrimeHunter

/-- Summary returned by `PrimeHunter.get_summary` (lines 172-182). -/
structure Summary where
  attempts : Nat
  primes_found : Nat
  largest_prime : Option Int
  prime_hit_rate : ℚ
  circuit_breaker : Stats
  recent_primes : List Int
  deriving DecidableEq, Repr

/-- Python's `max(lst)` on a nonempty list (`None`/absent when empty,
mirroring `max(...) if ... else None`). -/
def listMax : List Int → Option Int
  | [] => none
  | x :: xs => some (xs.foldl max x)

/-- Embedding of `PrimeHunter.get_summary` (lines 172-182).  `sorted(·, reverse=True)`
is modelled by Mathlib's stable `List.insertionSort` with `≥`, and the
Python slice `lst[-5:]` by dropping all but the last five elements. -/
def PrimeHunter.get_summary (h : PrimeHunter) (now : ℚ) : Summary :=
  { attempts := h.attempts
    primes_found := h.primes_found.length
    largest_prime := listMax h.primes_found
    prime_hit_rate := (h.primes_found.length : ℚ) / (max 1 h.attempts : Nat) * 100
    circuit_breaker := h.circuit_breaker.get_stats now
    recent_primes :=
      List.insertionSort (· ≥ ·)
        (h.primes_found.drop (h.primes_found.length - 5)) }

/-- One observable interaction with the breaker: the mutators carry the
clock value at which they are invoked; `allow` and `get_stats` are
read-only. -/
inductive BreakerEvent where
  | tripAt (now : ℚ)
  | resetAt
  | recordSuccessAt (now : ℚ)
  | allowAt (now : ℚ)
  | getStatsAt (now : ℚ)
  deriving DecidableEq, Repr

/-- Effect of one method call on the breaker state (`allow` and `get_stats`
have no side effect in the source). -/
def stepEvent (cb : CircuitBreaker) : BreakerEvent → CircuitBreaker
  | .tripAt t => cb.trip t
  | .resetAt => cb.reset
  | .recordSuccessAt t => cb.record_success t
  | .allowAt _ => cb
  | .getStatsAt _ => cb

/-- Run a sequence of method calls from a state. -/
def runEvents (cb : CircuitBreaker) : List BreakerEvent → CircuitBreaker
  | [] => cb
  | e :: es => runEvents (stepEvent cb e) es

/-- Iterate `n` consecutive `trip()` calls, all at clock value `t`. -/
def tripN (cb : CircuitBreaker) (t : ℚ) : Nat → CircuitBreaker
  | 0 => cb
  | n + 1 => (tripN cb t n).trip t

example : ((CircuitBreaker.init 3 120).record_success 100).total_successes = 1 := by
  norm_num [CircuitBreaker.record_success, CircuitBreaker.allow, CircuitBreaker.init]

example : (tripN (CircuitBreaker.init 3 5) 10 3).allow 14 = false := by
  norm_num [tripN, CircuitBreaker.trip, CircuitBreaker.allow, CircuitBreaker.init]

example : (tripN (CircuitBreaker.init 3 5) 10 3).allow 16 = true := by
  norm_num [tripN, CircuitBreaker.trip, CircuitBreaker.allow, CircuitBreaker.init]

/-!
## Correctness of `is_prime`

The Python loop `for i in range(3, int(math.sqrt(n)) + 1, 2)` hits a divisor
iff `n` has an odd divisor `d` with `3 ≤ d ≤ Nat.sqrt n`; for odd `n ≥ 3`
this happens iff `n` is composite.
-/

/-- The trial-division loop finds a divisor iff some visited value divides. -/
lemma range'_any_divisor (m c : Nat) :
    ((List.range' 3 c 2).any fun i => m % i == 0) = true ↔
      ∃ k, k < c ∧ m % (3 + 2 * k) = 0 := by
  simp only [List.any_eq_true, List.mem_range', beq_iff_eq]
  constructor
  · rintro ⟨i, ⟨k, hk, rfl⟩, hdvd⟩
    exact ⟨k, hk, hdvd⟩
  · rintro ⟨k, hk, hdvd⟩
    exact ⟨3 + 2 * k, ⟨k, hk, rfl⟩, hdvd⟩

/-- For odd `m ≥ 3`, the loop finds a divisor iff `m` is composite. -/
lemma divisor_below_sqrt_iff_not_prime (m : Nat) (hm : 3 ≤ m)
    (hodd : m % 2 = 1) :
    (∃ k, k < (Nat.sqrt m + 1 - 2) / 2 ∧ m % (3 + 2 * k) = 0) ↔
      ¬ Nat.Prime m := by
  constructor
  · rintro ⟨k, hk, hdvd⟩
    intro hp
    have hdle : 3 + 2 * k ≤ Nat.sqrt m := by omega
    have hlt : Nat.sqrt m < m := Nat.sqrt_lt_self (by omega)
    have hdvd' : (3 + 2 * k) ∣ m := Nat.dvd_of_mod_eq_zero hdvd
    rcases (Nat.Prime.eq_one_or_self_of_dvd hp _ hdvd') with h1 | h1 <;> omega
  · intro hp
    set p := Nat.minFac m with hpdef
    have hprime : Nat.Prime p := Nat.minFac_prime (by omega)
    have hdvd : p ∣ m := Nat.minFac_dvd m
    have hp2 : p ≠ 2 := by
      intro h2
      obtain ⟨c, hc⟩ := hdvd
      rw [h2] at hc
      omega
    have hpodd : Odd p := Nat.Prime.odd_of_ne_two hprime hp2
    have hp3 : 3 ≤ p := by
      have := hprime.two_le
      obtain ⟨j, hj⟩ := hpodd
      omega
    have hple : p ≤ Nat.sqrt m :=
      Nat.le_sqrt'.mpr (Nat.minFac_sq_le_self (by omega) hp)
    obtain ⟨j, hj⟩ := hpodd
    refine ⟨j - 1, by omega, ?_⟩
    have hpk : (3 + 2 * (j - 1)) = p := by omega
    obtain ⟨c, hc⟩ := hdvd
    rw [hpk, hc]
    exact Nat.mul_mod_right p c

/-- The function `is_prime` agrees with mathematical primality on every integer. -/
lemma is_prime_eq_true_iff (n : Int) :
    is_prime n = true ↔ 2 ≤ n ∧ Nat.Prime n.toNat := by
  unfold is_prime
  by_cases h1 : n < 2
  · simp only [if_pos h1, Bool.false_eq_true, false_iff, not_and]
    intro h2
    omega
  · by_cases h2 : n = 2
    · subst h2
      simp [Nat.prime_two]
    · by_cases h3 : n % 2 = 0
      · simp only [if_neg h1, if_neg h2, if_pos h3, Bool.false_eq_true, false_iff, not_and]
        intro _ hp
        have hdvd : 2 ∣ n.toNat := by omega
        rcases (Nat.Prime.eq_one_or_self_of_dvd hp 2 hdvd) with h | h <;> omega
      · simp only [if_neg h1, if_neg h2, if_neg h3, Bool.not_eq_true',
          ← Bool.not_eq_true, range'_any_divisor]
        have hm3 : 3 ≤ n.toNat := by omega
        have hmodd : n.toNat % 2 = 1 := by omega
        rw [divisor_below_sqrt_iff_not_prime n.toNat hm3 hmodd]
        constructor
        · intro h
          exact ⟨by omega, not_not.mp h⟩
        · intro h
          exact not_not.mpr h.2

/-- Bool-flipped version of the `is_prime` correctness lemma. -/
lemma is_prime_eq_false_iff (n : Int) :
    is_prime n = false ↔ ¬ (2 ≤ n ∧ Nat.Prime n.toNat) := by
  rw [← Bool.not_eq_true, is_prime_eq_true_iff]

example : is_prime 97 = true :=
  (is_prime_eq_true_iff 97).mpr ⟨by norm_num, by decide⟩
example : is_prime 9 = false :=
  (is_prime_eq_false_iff 9).mpr (by decide)

/-!
## Helper lemmas about `trip` iteration
-/

/-- One `trip` call: counters and configuration bookkeeping. -/
lemma trip_fields (cb : CircuitBreaker) (t : ℚ) :
    (cb.trip t).consecutive_failures = cb.consecutive_failures + 1 ∧
    (cb.trip t).total_failures = cb.total_failures + 1 ∧
    (cb.trip t).failure_threshold = cb.failure_threshold ∧
    (cb.trip t).cooldown_seconds = cb.cooldown_seconds ∧
    (cb.trip t).last_failure_time = some t := by
  simp only [CircuitBreaker.trip]
  split <;> simp

/-- A `trip` whose incremented streak reaches the threshold sets the
cooldown deadline. -/
lemma trip_tripped_until_of_reach (cb : CircuitBreaker) (t : ℚ)
    (h : cb.failure_threshold ≤ (cb.consecutive_failures : Int) + 1) :
    (cb.trip t).tripped_until = t + cb.cooldown_seconds := by
  simp only [CircuitBreaker.trip]
  rw [if_pos (by push_cast; omega)]

/-- Iterated `trip` adds to the failure streak and keeps the configuration. -/
lemma tripN_fields (cb : CircuitBreaker) (t : ℚ) (n : Nat) :
    (tripN cb t n).consecutive_failures = cb.consecutive_failures + n ∧
    (tripN cb t n).total_failures = cb.total_failures + n ∧
    (tripN cb t n).failure_threshold = cb.failure_threshold ∧
    (tripN cb t n).cooldown_seconds = cb.cooldown_seconds := by
  induction n with
  | zero => simp [tripN]
  | succ m ih =>
    obtain ⟨h1, h2, h3, h4, _⟩ := trip_fields (tripN cb t m) t
    obtain ⟨i1, i2, i3, i4⟩ := ih
    simp only [tripN]
    exact ⟨by omega, by omega, by rw [h3, i3], by rw [h4, i4]⟩

/-!
## Claim theorems
-/

/-- C1: `record_success()` is asymmetric.  While `allow()` is true (Closed)
it zeroes `consecutiveFailures`, increments `totalSuccesses` and leaves
`openUntil` untouched; while `allow()` is false (Open) it delegates to
`reset()`, so immediately afterwards `allow()` is true (clock values are
positive), `openUntil` is the closed sentinel 0, the streak is 0 and
`totalSuccesses` is incremented — regardless of remaining cooldown. -/
theorem record_success_asymmetric (cb : CircuitBreaker) (now : ℚ) :
    (cb.allow now = true →
      (cb.record_success now).consecutive_failures = 0 ∧
      (cb.record_success now).total_successes = cb.total_successes + 1 ∧
      (cb.record_success now).tripped_until = cb.tripped_until) ∧
    (cb.allow now = false →
      cb.record_success now = cb.reset ∧
      (0 < now → (cb.record_success now).allow now = true) ∧
      (cb.record_success now).tripped_until = 0 ∧
      (cb.record_success now).consecutive_failures = 0 ∧
      (cb.record_success now).total_successes = cb.total_successes + 1) := by
  constructor
  · intro h
    simp [CircuitBreaker.record_success, h]
  · intro h
    have h' : ¬ (cb.tripped_until < now) := by
      simpa [CircuitBreaker.allow] using h
    simp [CircuitBreaker.record_success, CircuitBreaker.allow, h',
      CircuitBreaker.reset]

/-- Witness for C1: both branches of `record_success_asymmetric` applied to
concrete states — a fresh breaker at clock 100, and a breaker opened until
clock 15 probed at clock 12. -/
theorem record_success_asymmetric_witness :
    ((CircuitBreaker.init 3 120).record_success 100).tripped_until
        = (CircuitBreaker.init 3 120).tripped_until ∧
    ((tripN (CircuitBreaker.init 3 5) 10 3).record_success 12).allow 12
        = true := by
  constructor
  · exact ((record_success_asymmetric (CircuitBreaker.init 3 120) 100).1
      (by norm_num [CircuitBreaker.allow, CircuitBreaker.init])).2.2
  · exact (((record_success_asymmetric (tripN (CircuitBreaker.init 3 5) 10 3)
        12).2
      (by norm_num [tripN, CircuitBreaker.trip, CircuitBreaker.allow,
        CircuitBreaker.init])).2.1) (by norm_num)

/-- C2: from a closed breaker with a zero streak, positive threshold and
positive cooldown, exactly `failureThreshold` consecutive `trip()` calls at
clock `t` make `allow()` false at every `t'` with `t < t' ≤ t + cooldown`
and true at every `t' > t + cooldown`, with no further method call. -/
theorem threshold_trips_open_then_time_reopens (cb : CircuitBreaker)
    (t : ℚ) (n : Nat) (hn : 0 < n) (hft : (n : Int) = cb.failure_threshold)
    (hcs : 0 < cb.cooldown_seconds) (hcf : cb.consecutive_failures = 0)
    (hallow : cb.allow t = true) :
    (∀ t' : ℚ, t < t' → t' ≤ t + cb.cooldown_seconds →
      (tripN cb t n).allow t' = false) ∧
    (∀ t' : ℚ, t + cb.cooldown_seconds < t' →
      (tripN cb t n).allow t' = true) := by
  obtain ⟨m, rfl⟩ : ∃ m, n = m + 1 := ⟨n - 1, by omega⟩
  have hfields := tripN_fields cb t m
  have hset : (tripN cb t (m + 1)).tripped_until = t + cb.cooldown_seconds := by
    show ((tripN cb t m).trip t).tripped_until = _
    rw [trip_tripped_until_of_reach _ t
      (by rw [hfields.2.2.1, hfields.1, hcf]; push_cast; omega),
      hfields.2.2.2]
  constructor
  · intro t' _ h2
    simp only [CircuitBreaker.allow, hset, gt_iff_lt, decide_eq_false_iff_not,
      not_lt]
    exact h2
  · intro t' h1
    simp only [CircuitBreaker.allow, hset, gt_iff_lt, decide_eq_true_eq]
    exact h1

/-- Witness for C2: threshold 3, cooldown 5, trips at clock 10 — blocked at
clock 14 (within cooldown), allowed again at clock 16. -/
theorem threshold_trips_open_then_time_reopens_witness :
    (tripN (CircuitBreaker.init 3 5) 10 3).allow 14 = false ∧
    (tripN (CircuitBreaker.init 3 5) 10 3).allow 16 = true := by
  have h := threshold_trips_open_then_time_reopens (CircuitBreaker.init 3 5)
    10 3 (by norm_num) (by norm_num [CircuitBreaker.init])
    (by norm_num [CircuitBreaker.init]) (by norm_num [CircuitBreaker.init])
    (by norm_num [CircuitBreaker.allow, CircuitBreaker.init])
  exact ⟨h.1 14 (by norm_num) (by norm_num [CircuitBreaker.init]),
    h.2 16 (by norm_num [CircuitBreaker.init])⟩

/-- C3 counterexample: threshold 3, cooldown 5, tripped three times at
clock 0, cooldown elapsed by clock 10 (`allow` true), no success recorded.
The claim says a single further `trip()` must not immediately re-open the
circuit, but the streak was never cleared, so one `trip()` at clock 10
re-opens it: `allow` at clock 11 is false. -/
theorem reopened_single_trip_counterexample :
    (tripN (CircuitBreaker.init 3 5) 0 3).allow 10 = true ∧
    ((tripN (CircuitBreaker.init 3 5) 0 3).trip 10).allow 11 = false := by
  norm_num [tripN, CircuitBreaker.trip, CircuitBreaker.allow,
    CircuitBreaker.init]

/-- C3 amended: after the breaker has opened and its cooldown elapsed with
no success in between, the failure streak is *not* cleared — it still
meets the threshold, so the very next `trip()` re-opens the circuit for a
fresh cooldown window.  A fresh streak begins only after a success: after
`record_success()` while allowed, a single `trip()` leaves `openUntil`
unchanged and the streak at 1 when `failureThreshold > 1`. -/
theorem reopened_single_trip_reopens (cb : CircuitBreaker) (t t' : ℚ)
    (hcf : cb.failure_threshold ≤ (cb.consecutive_failures : Int))
    (ht' : t' ≤ t + cb.cooldown_seconds) :
    (cb.trip t).allow t' = false ∧
    (cb.allow t = true → cb.failure_threshold > 1 →
      ((cb.record_success t).trip t).tripped_until = cb.tripped_until ∧
      ((cb.record_success t).trip t).consecutive_failures = 1) := by
  constructor
  · rw [CircuitBreaker.allow, trip_tripped_until_of_reach cb t (by omega)]
    simpa using ht'
  · intro hallow hft
    have hrs : cb.record_success t =
        { cb with consecutive_failures := 0,
                  total_successes := cb.total_successes + 1 } := by
      simp [CircuitBreaker.record_success, hallow]
    rw [hrs]
    constructor
    · simp only [CircuitBreaker.trip]
      rw [if_neg (by push_cast; omega)]
    · simp only [CircuitBreaker.trip]
      split <;> simp

/-- Witness for C3's amended theorem: the opened breaker from the
counterexample scenario, plus the fresh-streak-after-success part. -/
theorem reopened_single_trip_reopens_witness :
    ((tripN (CircuitBreaker.init 3 5) 0 3).trip 10).allow 11 = false ∧
    (((tripN (CircuitBreaker.init 3 5) 0 3).record_success 10).trip
        10).consecutive_failures = 1 := by
  have h := reopened_single_trip_reopens (tripN (CircuitBreaker.init 3 5) 0 3)
    10 11
    (by norm_num [tripN, CircuitBreaker.trip, CircuitBreaker.init])
    (by norm_num [tripN, CircuitBreaker.trip, CircuitBreaker.init])
  exact ⟨h.1,
    (h.2 (by norm_num [tripN, CircuitBreaker.trip, CircuitBreaker.allow,
        CircuitBreaker.init])
      (by norm_num [tripN, CircuitBreaker.trip, CircuitBreaker.init])).2⟩

/-- C5: `get_stats()` reports `successRate =
totalSuccesses / max(1, totalSuccesses + totalFailures) * 100` in every
state; hence 0 before any operation, 100 after one success, and 50 after
one success and one failure. -/
theorem get_stats_success_rate (cb : CircuitBreaker) (now : ℚ) :
    ((cb.get_stats now).success_rate =
      (cb.total_successes : ℚ)
        / (max 1 (cb.total_successes + cb.total_failures) : Nat) * 100) ∧
    ((CircuitBreaker.init 3 120).get_stats 100).success_rate = 0 ∧
    (((CircuitBreaker.init 3 120).record_success 50).get_stats
        100).success_rate = 100 ∧
    ((((CircuitBreaker.init 3 120).record_success 50).trip 60).get_stats
        100).success_rate = 50 := by
  refine ⟨rfl, ?_, ?_, ?_⟩ <;>
    norm_num [CircuitBreaker.get_stats, CircuitBreaker.init,
      CircuitBreaker.record_success, CircuitBreaker.allow,
      CircuitBreaker.trip]

/-- One method call preserves `consecutiveFailures ≤ totalFailures`. -/
lemma stepEvent_preserves_cf_le_tf (cb : CircuitBreaker) (e : BreakerEvent)
    (h : cb.consecutive_failures ≤ cb.total_failures) :
    (stepEvent cb e).consecutive_failures ≤
      (stepEvent cb e).total_failures := by
  cases e with
  | tripAt t =>
    obtain ⟨h1, h2, _⟩ := trip_fields cb t
    simp only [stepEvent]
    omega
  | resetAt =>
    simpa [stepEvent, CircuitBreaker.reset] using Nat.zero_le _
  | recordSuccessAt t =>
    simp only [stepEvent, CircuitBreaker.record_success]
    split
    · simpa using Nat.zero_le _
    · simpa [CircuitBreaker.reset] using Nat.zero_le _
  | allowAt t => exact h
  | getStatsAt t => exact h

/-- The invariant holds along any run from a state satisfying it. -/
lemma runEvents_preserves_cf_le_tf (es : List BreakerEvent)
    (cb : CircuitBreaker) (h : cb.consecutive_failures ≤ cb.total_failures) :
    (runEvents cb es).consecutive_failures ≤
      (runEvents cb es).total_failures := by
  induction es generalizing cb with
  | nil => exact h
  | cons e es ih =>
    exact ih (stepEvent cb e) (stepEvent_preserves_cf_le_tf cb e h)

/-- C6: in every state reachable from a freshly constructed breaker by any
sequence of `trip`, `reset`, `record_success`, `allow` and `get_stats`
calls, `consecutiveFailures ≤ totalFailures`. -/
theorem consecutive_never_exceeds_total (ft : Int) (cs : ℚ)
    (es : List BreakerEvent) :
    (runEvents (CircuitBreaker.init ft cs) es).consecutive_failures ≤
      (runEvents (CircuitBreaker.init ft cs) es).total_failures :=
  runEvents_preserves_cf_le_tf es (CircuitBreaker.init ft cs) (Nat.le_refl 0)

/-- C10: `reset()` — and hence `record_success()` while the breaker is
Open — leaves `totalFailures` and `lastFailureTime` unchanged. -/
theorem reset_preserves_failure_history (cb : CircuitBreaker) (now : ℚ) :
    cb.reset.total_failures = cb.total_failures ∧
    cb.reset.last_failure_time = cb.last_failure_time ∧
    (cb.allow now = false →
      (cb.record_success now).total_failures = cb.total_failures ∧
      (cb.record_success now).last_failure_time = cb.last_failure_time) := by
  refine ⟨rfl, rfl, fun h => ?_⟩
  have h' : ¬ (cb.tripped_until < now) := by
    simpa [CircuitBreaker.allow] using h
  simp [CircuitBreaker.record_success, CircuitBreaker.allow, h',
    CircuitBreaker.reset]

/-- Witness for C10: a breaker opened at clock 0 (cooldown 5, so blocked at
clock 2) keeps its three recorded failures and their timestamp across
`record_success`. -/
theorem reset_preserves_failure_history_witness :
    ((tripN (CircuitBreaker.init 3 5) 0 3).record_success 2).total_failures
        = (tripN (CircuitBreaker.init 3 5) 0 3).total_failures ∧
    ((tripN (CircuitBreaker.init 3 5) 0 3).record_success 2).last_failure_time
        = (tripN (CircuitBreaker.init 3 5) 0 3).last_failure_time :=
  (reset_preserves_failure_history (tripN (CircuitBreaker.init 3 5) 0 3)
    2).2.2
    (by norm_num [tripN, CircuitBreaker.trip, CircuitBreaker.allow,
      CircuitBreaker.init])

/-- C7: while the breaker disallows the operation, `hunt_prime` (the spec's
`hunt_once`) returns `false` and leaves the whole hunter — attempt counter,
found-primes list and breaker — unchanged. -/
theorem hunt_prime_blocked_is_free (h : PrimeHunter) (now : ℚ) (number : Int)
    (hb : h.circuit_breaker.allow now = false) :
    h.hunt_prime now number = (h, false) ∧
    (h.hunt_prime now number).1.attempts = h.attempts ∧
    (h.hunt_prime now number).1.primes_found = h.primes_found ∧
    (h.hunt_prime now number).1.circuit_breaker = h.circuit_breaker := by
  have he : h.hunt_prime now number = (h, false) := by
    simp [PrimeHunter.hunt_prime, hb]
  exact ⟨he, by rw [he], by rw [he], by rw [he]⟩

/-- A hunter whose breaker was tripped open at clock 0 with cooldown 5. -/
def blockedHunter : PrimeHunter :=
  { PrimeHunter.init 3 5 5 1000000 with
    circuit_breaker := tripN (CircuitBreaker.init 3 5) 0 3 }

/-- Witness for C7: the blocked hunter probed at clock 2 with sample 9. -/
theorem hunt_prime_blocked_is_free_witness :
    blockedHunter.hunt_prime 2 9 = (blockedHunter, false) :=
  (hunt_prime_blocked_is_free blockedHunter 2 9
    (by norm_num [blockedHunter, tripN, CircuitBreaker.trip,
      CircuitBreaker.allow, CircuitBreaker.init])).1

/-- The seed of a `max`-fold is below the result. -/
lemma le_foldl_max (l : List Int) (a : Int) : a ≤ l.foldl max a := by
  induction l generalizing a with
  | nil => exact le_refl a
  | cons x xs ih => exact le_trans (le_max_left a x) (ih (max a x))

/-- Every element of the folded list is below the result of a `max`-fold. -/
lemma mem_le_foldl_max (l : List Int) (a x : Int) (hx : x ∈ l) :
    x ≤ l.foldl max a := by
  induction l generalizing a with
  | nil => cases hx
  | cons y ys ih =>
    rcases List.mem_cons.mp hx with rfl | hm
    · exact le_trans (le_max_right a x) (le_foldl_max ys (max a x))
    · exact ih (max a y) hm

/-- A `max`-fold returns the seed or a list element. -/
lemma foldl_max_mem (l : List Int) (a : Int) : l.foldl max a ∈ a :: l := by
  induction l generalizing a with
  | nil => simp
  | cons x xs ih =>
    simp only [List.foldl_cons]
    rcases List.mem_cons.mp (ih (max a x)) with he | hm
    · rw [he]
      rcases max_choice a x with hc | hc <;> rw [hc] <;> simp
    · simp [hm]

/-- C8: `get_summary()` reports the attempt count, the found count, the
maximum found value (`none` when nothing was found), the hit rate
`found / max(1, attempts) * 100`, the breaker's statistics snapshot, and
the at-most-5 most recent found values sorted descending by value. -/
theorem get_summary_report (h : PrimeHunter) (now : ℚ) :
    (h.get_summary now).attempts = h.attempts ∧
    (h.get_summary now).primes_found = h.primes_found.length ∧
    (h.primes_found = [] → (h.get_summary now).largest_prime = none) ∧
    (∀ x ∈ h.primes_found, ∃ m, (h.get_summary now).largest_prime = some m ∧
      m ∈ h.primes_found ∧ x ≤ m) ∧
    (h.get_summary now).prime_hit_rate =
      (h.primes_found.length : ℚ) / (max 1 h.attempts : Nat) * 100 ∧
    (h.get_summary now).circuit_breaker = h.circuit_breaker.get_stats now ∧
    (h.get_summary now).recent_primes.length ≤ 5 ∧
    List.Sorted (· ≥ ·) ((h.get_summary now).recent_primes) ∧
    (h.get_summary now).recent_primes.Perm
      (h.primes_found.drop (h.primes_found.length - 5)) := by
  refine ⟨rfl, rfl, ?_, ?_, rfl, rfl, ?_, ?_, ?_⟩
  · intro he
    simp [PrimeHunter.get_summary, he, listMax]
  · intro x hx
    match hl : h.primes_found with
    | [] => rw [hl] at hx; cases hx
    | y :: ys =>
      refine ⟨ys.foldl max y, ?_, ?_, ?_⟩
      · simp [PrimeHunter.get_summary, hl, listMax]
      · exact foldl_max_mem ys y
      · rw [hl] at hx
        rcases List.mem_cons.mp hx with rfl | hm
        · exact le_foldl_max ys x
        · exact mem_le_foldl_max ys y x hm
  · have hp := List.perm_insertionSort (α := Int) (· ≥ ·)
      (h.primes_found.drop (h.primes_found.length - 5))
    have hlen := hp.length_eq
    rw [List.length_drop] at hlen
    simpa [PrimeHunter.get_summary] using hlen.le.trans (by omega)
  · exact List.sorted_insertionSort (· ≥ ·) _
  · exact List.perm_insertionSort (· ≥ ·) _

/-- A hunter that has recorded primes 7, 11, 5 over four attempts. -/
def sampleHunter : PrimeHunter :=
  { PrimeHunter.init 3 120 5 1000000 with
    primes_found := [7, 11, 5]
    attempts := 4 }

/-- Witness for C8: the sample hunter's summary at clock 0, and its largest
found value dominating the first found prime 7. -/
theorem get_summary_report_witness :
    (sampleHunter.get_summary 0).attempts = 4 ∧
    ∃ m, (sampleHunter.get_summary 0).largest_prime = some m ∧
      m ∈ sampleHunter.primes_found ∧ (7 : Int) ≤ m := by
  have h := get_summary_report sampleHunter 0
  exact ⟨h.1, h.2.2.2.1 7 (by norm_num [sampleHunter, PrimeHunter.init])⟩

/-- C9 counterexample: the constructors perform no validation.  A breaker
built with threshold `-1` and cooldown `-2`, and a hunter with the inverted
range `[10, 5]`, are silently accepted with the invalid values stored
as-is; the invalid cooldown is even used: one failure at clock 10 "opens"
the breaker only until clock `10 + (-2) = 8`. -/
theorem invalid_config_accepted_counterexample :
    (CircuitBreaker.init (-1) (-2)).failure_threshold = -1 ∧
    (CircuitBreaker.init (-1) (-2)).cooldown_seconds = -2 ∧
    (PrimeHunter.init 3 120 10 5).min_num = 10 ∧
    (PrimeHunter.init 3 120 10 5).max_num = 5 ∧
    ((CircuitBreaker.init (-1) (-2)).trip 10).tripped_until = 8 := by
  refine ⟨rfl, rfl, rfl, rfl, ?_⟩
  norm_num [CircuitBreaker.trip, CircuitBreaker.init]

/-- C9 amended: construction with invalid configuration — nonpositive
threshold, nonpositive cooldown, or an inverted sampling range — is
*silently accepted*: `__init__` performs no validation and stores the
given values unchanged (neither rejected nor replaced by a default). -/
theorem invalid_config_accepted (ft : Int) (cs : ℚ) (mn mx : Int) :
    (CircuitBreaker.init ft cs).failure_threshold = ft ∧
    (CircuitBreaker.init ft cs).cooldown_seconds = cs ∧
    (PrimeHunter.init ft cs mn mx).min_num = mn ∧
    (PrimeHunter.init ft cs mn mx).max_num = mx ∧
    (PrimeHunter.init ft cs mn mx).circuit_breaker =
      CircuitBreaker.init ft cs :=
  ⟨rfl, rfl, rfl, rfl, rfl⟩

/-- C4: `is_prime` is false for `n < 2`, true at 2, false for even `n > 2`;
for odd `n > 2` it is false iff some odd `d` with `3 ≤ d ≤ ⌊√n⌋` divides
`n`; equivalently it is true exactly on the prime numbers; in particular it
is false on 4, 6, 8, 9, 10 and true on 11. -/
theorem is_prime_correct :
    (∀ n : Int, n < 2 → is_prime n = false) ∧
    is_prime 2 = true ∧
    (∀ n : Int, 2 < n → n % 2 = 0 → is_prime n = false) ∧
    (∀ n : Int, 2 < n → n % 2 = 1 →
      (is_prime n = false ↔
        ∃ d : Nat, d % 2 = 1 ∧ 3 ≤ d ∧ d ≤ Nat.sqrt n.toNat ∧
          n.toNat % d = 0)) ∧
    (∀ n : Int, is_prime n = true ↔ 2 ≤ n ∧ Nat.Prime n.toNat) ∧
    is_prime 4 = false ∧ is_prime 6 = false ∧ is_prime 8 = false ∧
    is_prime 9 = false ∧ is_prime 10 = false ∧ is_prime 11 = true := by
  refine ⟨?_, ?_, ?_, ?_, is_prime_eq_true_iff, ?_, ?_, ?_, ?_, ?_, ?_⟩
  · intro n hn
    unfold is_prime
    rw [if_pos hn]
  · exact (is_prime_eq_true_iff 2).mpr ⟨by norm_num, by decide⟩
  · intro n hn heven
    unfold is_prime
    rw [if_neg (by omega), if_neg (by omega), if_pos heven]
  · intro n hn hodd
    have hrw : is_prime n =
        !((List.range' 3 ((Nat.sqrt n.toNat + 1 - 2) / 2) 2).any
          fun i => n.toNat % i == 0) := by
      unfold is_prime
      rw [if_neg (by omega), if_neg (by omega), if_neg (by omega)]
    rw [hrw, Bool.not_eq_false', range'_any_divisor]
    constructor
    · rintro ⟨k, hk, hdvd⟩
      exact ⟨3 + 2 * k, by omega, by omega, by omega, hdvd⟩
    · rintro ⟨d, hd2, hd3, hdle, hdvd⟩
      refine ⟨(d - 3) / 2, by omega, ?_⟩
      have : 3 + 2 * ((d - 3) / 2) = d := by omega
      rw [this]
      exact hdvd
  · exact (is_prime_eq_false_iff 4).mpr (by decide)
  · exact (is_prime_eq_false_iff 6).mpr (by decide)
  · exact (is_prime_eq_false_iff 8).mpr (by decide)
  · exact (is_prime_eq_false_iff 9).mpr (by decide)
  · exact (is_prime_eq_false_iff 10).mpr (by decide)
  · exact (is_prime_eq_true_iff 11).mpr ⟨by norm_num, by decide⟩

/-- Witness for C4: `is_prime_correct` applied at -5 (below 2), 14 (even),
15 (odd composite, via divisor 3 ≤ √15), and 97 (prime). -/
theorem is_prime_correct_witness :
    is_prime (-5) = false ∧ is_prime 14 = false ∧ is_prime 15 = false ∧
    is_prime 97 = true := by
  have h := is_prime_correct
  refine ⟨h.1 (-5) (by norm_num), h.2.2.1 14 (by norm_num) (by decide),
    ?_, (h.2.2.2.2.1 97).mpr ⟨by norm_num, by decide⟩⟩
  refine (h.2.2.2.1 15 (by norm_num) (by decide)).mpr ⟨3, ?_, ?_, ?_, ?_⟩
  · decide
  · decide
  · show 3 ≤ Nat.sqrt (Int.toNat 15)
    have : Nat.sqrt 15 = 3 := by norm_num
    simp [this]
  · decide
